import Mathlib

/-
  Verification development for IslandCaller, src/Core/Random.cpp.

  The program keeps three globals: a roster `students : vector<string>`, a flag
  `isInitialized : bool`, and an exhaustion set `RandomHashSet : unordered_set<string>`
  (all accesses serialized by `randomMutex`; the lock itself is not modelled, every
  operation below is the body it guards, executed atomically).

  Strings are modelled as lists of characters.  The three exported operations
  `RandomImport`, `ClearHistory` and `SimpleRandom` are modelled as pure functions on
  an explicit `EngineState`.  File I/O is abstracted: the opened file is either
  unavailable (`none`) or a list of its lines.  `SimpleRandom`'s random source
  (a fresh `mt19937` per call) is abstracted as an oracle `rand : Nat → Nat` giving
  the i-th draw of the call; `uniform_int_distribution(i, len-1)` always yields a
  value inside `[i, len-1]`, which the model enforces by clamping the oracle value
  into that interval.

  The C++ functions signal errors through sentinel return values and message boxes
  (`-1` plus a MessageBox for import; the strings "Not Initialized!",
  "Not enough students!", "Not enough available students!" for SimpleRandom).
  These are modelled as the typed results `ImportError` and `PickError`; the mapping
  to the concrete messages is noted at each definition.
-/

namespace IslandCaller

/-- A C++ `std::string`, modelled as its list of characters. -/
abbrev Str := List Char

/-! ## Field extraction (RandomImport, lines 52-84) -/

/-- The whitespace characters of the C++ trim set `" \t\n\r"` (lines 77-78). -/
def isSpaceChar (c : Char) : Bool :=
  c = ' ' || c = '\t' || c = '\n' || c = '\r'

/-- Lines 77-78:
    `name.erase(0, name.find_first_not_of(" \t\n\r"))` removes the leading run of
    whitespace (everything, if the string is all whitespace), and
    `name.erase(name.find_last_not_of(" \t\n\r") + 1)` removes the trailing run. -/
def cppTrim (s : Str) : Str :=
  ((s.dropWhile isSpaceChar).reverse.dropWhile isSpaceChar).reverse

/-- Lines 61-64: two independent conditional erasures, not a matched pair:
    `if (!token.empty() && token.front() == '"') token.erase(0, 1);`
    `if (!token.empty() && token.back() == '"') token.pop_back();` -/
def stripQuotes (token : Str) : Str :=
  let t1 := if token ≠ [] ∧ token.head? = some '\"' then token.drop 1 else token
  if t1 ≠ [] ∧ t1.getLast? = some '\"' then t1.dropLast else t1

/-- Character scanner for `getline(ss, token, ',')` (line 57): `tok` is the
    (reversed) token read so far.  At a `','` the token is complete; reading
    continues only if characters remain (`getline` fails at once on an exhausted
    stream, so a trailing `','` produces no final empty token).  At the end of
    the input the token in progress is delivered. -/
def cppSplitAux : Str → Str → List Str
  | [], tok => [tok.reverse]
  | c :: rest, tok =>
    if c = ',' then
      match rest with
      | [] => [tok.reverse]
      | _ :: _ => tok.reverse :: cppSplitAux rest []
    else cppSplitAux rest (c :: tok)

/-- The token sequence produced by repeated `getline(ss, token, ',')` on the
    row (line 57): no token at all for an empty row (the first `getline` fails
    immediately). -/
def cppSplit (s : Str) : List Str :=
  match s with
  | [] => []
  | _ :: _ => cppSplitAux s []

/-- Lines 52-69: the inner loop scans the row's tokens and keeps the one at
    `columnIndex == 1` (second column), quote-stripped; `name` was cleared before
    the loop, so a row with no second token contributes the empty string. -/
def extractName (row : Str) : Str :=
  match (cppSplit row).get? 1 with
  | none => []
  | some token => stripQuotes token

/-! ## Engine state and RandomImport -/

/-- The three globals of Random.cpp (lines 5-7). -/
structure EngineState where
  students : List Str
  isInitialized : Bool
  randomHashSet : Finset Str
deriving DecidableEq

/-- The initial state of the globals (lines 5-7): empty roster, not initialized,
    empty exhaustion set. -/
def initialState : EngineState :=
  { students := [], isInitialized := false, randomHashSet := ∅ }

/-- The import failure modes of RandomImport; each is reported by a MessageBox and
    the return value `-1`: failed open (line 43), capacity (line 72), empty
    namelist (line 90). -/
inductive ImportError where
  | sourceUnavailable
  | emptyResult
  | capacityExceeded
deriving DecidableEq

/-- `students.max_size()` (line 71): a huge platform constant (on the order of
    2^62 for a vector of strings on a 64-bit platform), unreachable in any real
    run since the roster grows by at most one entry per input row. -/
def vectorMaxSize : Nat := 2 ^ 62

/-- The row loop of RandomImport (lines 50-85), threading the global `students`
    and the local `ImportHashSet`.  Per row: extract the second-column name
    (lines 52-69), check capacity (lines 71-75), trim (lines 77-78), skip empty
    names (line 80) and names already imported (line 81), otherwise append the
    name and record it (lines 83-84). -/
def importRows : List Str → List Str → Finset Str → List Str × Option ImportError
  | [], students, _ => (students, none)
  | row :: rest, students, importHashSet =>
    let token := extractName row
    if vectorMaxSize ≤ students.length then (students, some .capacityExceeded)
    else
      let name := cppTrim token
      if name = [] then importRows rest students importHashSet
      else if name ∈ importHashSet then importRows rest students importHashSet
      else importRows rest (students ++ [name]) (insert name importHashSet)

/-- RandomImport (lines 30-97).  `students.clear()` and `RandomHashSet.clear()`
    happen first (lines 33-34), before the file is opened, so every exit leaves
    the roster rebuilt from scratch (empty, or partial on a capacity error).
    The file argument is the abstraction of the resolved csv file: `none` when
    the open fails (line 42), otherwise the list of its lines.  The first line is
    the header, read and discarded (line 49).  `isInitialized` is written only on
    the success path (line 95). -/
def randomImport (st : EngineState) (file : Option (List Str)) :
    EngineState × Option ImportError :=
  match file with
  | none =>
    ({ students := [], isInitialized := st.isInitialized, randomHashSet := ∅ },
     some .sourceUnavailable)
  | some lines =>
    match importRows (lines.drop 1) [] ∅ with
    | (students, some e) =>
      ({ students := students, isInitialized := st.isInitialized, randomHashSet := ∅ },
       some e)
    | (students, none) =>
      if students = [] then
        ({ students := [], isInitialized := st.isInitialized, randomHashSet := ∅ },
         some .emptyResult)
      else
        ({ students := students, isInitialized := true, randomHashSet := ∅ }, none)

/-- ClearHistory (lines 99-103): unconditionally clears the exhaustion set. -/
def clearHistory (st : EngineState) : EngineState :=
  { st with randomHashSet := ∅ }

/-! ## SimpleRandom -/

/-- The pick failure modes of SimpleRandom, returned as the strings
    "Not Initialized!" (line 112), "Not enough students!" (line 117) and
    "Not enough available students!" (line 145). -/
inductive PickError where
  | notInitialized
  | requestExceedsRoster
  | insufficientAvailable
deriving DecidableEq

/-- The result of SimpleRandom: either the selected names in selection order
    (the C++ concatenates them with a two-space separator into the returned
    BSTR, lines 164-173; the separator is presentation only) or an error. -/
inductive PickResult where
  | ok : List Str → PickResult
  | err : PickError → PickResult
deriving DecidableEq

/-- A draw of `uniform_int_distribution<>(lo, hi)` (line 154): the distribution
    object always produces a value inside `[lo, hi]`; the arbitrary oracle value
    is clamped into that interval to model this guarantee. -/
def clampDraw (v lo hi : Nat) : Nat :=
  max lo (min v hi)

/-- The selection loop of SimpleRandom (lines 151-174).  At step `i` (with `k`
    steps remaining) it draws `randomPos` in `[i, availableIndices.size()-1]`,
    swaps `availableIndices[i]` and `availableIndices[randomPos]` (line 158),
    selects `students[availableIndices[i]]` (line 161), appends it to the output
    and inserts it into `RandomHashSet` (line 167). -/
def pickLoop (students : List Str) (rand : Nat → Nat) :
    Nat → Nat → List Nat → Finset Str → List Str × Finset Str
  | _, 0, _, hs => ([], hs)
  | i, k + 1, avail, hs =>
    let j := clampDraw (rand i) i (avail.length - 1)
    let a := avail.getD i 0
    let b := avail.getD j 0
    let avail2 := (avail.set i b).set j a
    let sel := students.getD (avail2.getD i 0) []
    let r := pickLoop students rand (i + 1) k avail2 (insert sel hs)
    (sel :: r.1, r.2)

/-- Lines 121-124: the exhaustion set SimpleRandom works with after its automatic
    clear: cleared when `RandomHashSet.size() >= students.size()`, otherwise kept. -/
def afterAutoClear (st : EngineState) : Finset Str :=
  if st.students.length ≤ st.randomHashSet.card then (∅ : Finset Str)
  else st.randomHashSet

/-- Lines 127-135: `availableIndices`, the indices `i` of `students` (in increasing
    order) whose entry is not in the exhaustion set. -/
def availableIndices (students : List Str) (hs : Finset Str) : List Nat :=
  (List.range students.length).filter (fun i => decide (students.getD i [] ∉ hs))

/-- SimpleRandom (lines 106-177).  Checks, in order: initialization (line 110);
    `number > students.size()` (line 115); the automatic clear of the exhaustion
    set when `RandomHashSet.size() >= students.size()` (lines 121-124); builds
    `availableIndices`, the indices of students not in the (possibly cleared)
    exhaustion set (lines 127-135); checks `number > availableIndices.size()`
    (line 143); then runs the selection loop.  Note that the automatic clear
    precedes the availability check, so an `insufficientAvailable` exit keeps
    the cleared set. -/
def simpleRandom (st : EngineState) (number : Nat) (rand : Nat → Nat) :
    EngineState × PickResult :=
  if st.isInitialized = false then (st, .err .notInitialized)
  else if st.students.length < number then (st, .err .requestExceedsRoster)
  else
    let hs1 := afterAutoClear st
    let avail := availableIndices st.students hs1
    if avail.length < number then
      ({ st with randomHashSet := hs1 }, .err .insufficientAvailable)
    else
      let r := pickLoop st.students rand 0 number avail hs1
      ({ st with randomHashSet := r.2 }, .ok r.1)

/-! ## Reachable states -/

/-- The states the engine's globals can be in: the initial state, and anything
    produced from a reachable state by one of the three exported operations. -/
inductive Reachable : EngineState → Prop
  | init : Reachable initialState
  | importStep {s} (file : Option (List Str)) :
      Reachable s → Reachable (randomImport s file).1
  | clear {s} : Reachable s → Reachable (clearHistory s)
  | pick {s} (number : Nat) (rand : Nat → Nat) :
      Reachable s → Reachable (simpleRandom s number rand).1

/-- The internal well-formedness of the globals: the roster has no duplicates and
    no empty entries, and the exhaustion set only holds roster entries. -/
def Inv (s : EngineState) : Prop :=
  s.students.Nodup ∧ (∀ x ∈ s.students, x ≠ []) ∧
    ∀ x ∈ s.randomHashSet, x ∈ s.students

/-- A sequence of successful SimpleRandom calls during which no call triggers the
    automatic exhaustion reset (at each call the exhaustion set is strictly
    smaller than the roster, so lines 121-124 do not clear it), relating the
    starting state, the concatenation of the returned name sequences, and the
    final state. -/
inductive CleanRun : EngineState → List Str → EngineState → Prop
  | nil (s : EngineState) : CleanRun s [] s
  | cons {s s' s'' : EngineState} {out outs : List Str} (n : Nat) (rand : Nat → Nat) :
      s.randomHashSet.card < s.students.length →
      simpleRandom s n rand = (s', PickResult.ok out) →
      CleanRun s' outs s'' →
      CleanRun s (out ++ outs) s''

/-! ## Spec-side definitions (for refinement statements)

These are written from the specification's wording, to be compared in theorems
with the definitions above, which are translated from the source. -/

/-- Spec wording: remove a leading quote character if present. -/
def dropLeadingQuote (t : Str) : Str :=
  if t.head? = some '\"' then t.drop 1 else t

/-- Spec wording: remove a trailing quote character if present. -/
def dropTrailingQuote (t : Str) : Str :=
  if t.getLast? = some '\"' then t.dropLast else t

/-- The claim's wording: strip the quotes exactly when the field both begins and
    ends with a quote character (a single matching pair, so the field must be at
    least two characters long); otherwise keep the field unchanged. -/
def claimPairStrip (t : Str) : Str :=
  if 2 ≤ t.length ∧ t.head? = some '\"' ∧ t.getLast? = some '\"' then
    (t.drop 1).dropLast
  else t

/-- Spec wording for import deduplication: keep each name's first occurrence,
    in order of first appearance, starting from `acc`. -/
def firstOccurAux (acc : List Str) : List Str → List Str
  | [] => acc
  | n :: rest =>
    if n ∈ acc then firstOccurAux acc rest else firstOccurAux (acc ++ [n]) rest

/-- The candidate names of the data rows: per row the quote-stripped, trimmed
    second column, with rows yielding an empty name dropped. -/
def rowNames (rows : List Str) : List Str :=
  (rows.map (fun r => cppTrim (extractName r))).filter (fun n => decide (n ≠ []))

/-! ## Concrete sample data (used by counterexamples and witnesses) -/

/-- A sample csv file: a header line and three data rows naming Alice, Bob and
    Carol in the second column. -/
def sampleLines : List Str :=
  ["id,name".toList, "1,Alice".toList, "2,Bob".toList, "3,Carol".toList]

/-- The engine state after a successful import of `sampleLines`. -/
def stateABC : EngineState := (randomImport initialState (some sampleLines)).1

/-- The engine state after `stateABC` suffers an import whose file cannot be
    opened. -/
def stateAfterFailedImport : EngineState := (randomImport stateABC none).1

/-- A concrete draw oracle: every draw is 0, so the clamped draw at step `i`
    is `i` and every swap is a self-swap. -/
def rZero : Nat → Nat := fun _ => 0

/-- The engine state after picking two names (Alice, Bob) from `stateABC`. -/
def statePicked2 : EngineState := (simpleRandom stateABC 2 rZero).1

/-- The engine state after additionally picking the last name (Carol): the
    exhaustion set now holds the whole roster. -/
def stateExhausted : EngineState := (simpleRandom statePicked2 1 rZero).1

/-- The two names returned by the first pick of two from `stateABC`. -/
def pickedAB : List Str := ["Alice".toList, "Bob".toList]

/-- A csv file whose data rows repeat the name Alice. -/
def sampleLinesDup : List Str :=
  ["id,name".toList, "1,Alice".toList, "2,Bob".toList, "3,Alice".toList]

/-- Data rows containing a row with no second comma-separated field. -/
def sampleRowsJunk : List Str :=
  ["1,Alice".toList, "junk".toList, "2,Bob".toList]

/-! ## List helper lemmas for the swap-based selection loop -/

lemma getD_cons_set_perm {α : Type} (d : α) :
    ∀ (t : List α) (m : Nat) (x : α), m < t.length →
      (t.getD m d :: t.set m x).Perm (x :: t) := by
  intro t
  induction t with
  | nil => intro m x h; simp at h
  | cons y t' ih =>
    intro m x h
    cases m with
    | zero => exact List.Perm.swap x y t'
    | succ m =>
      have hm : m < t'.length := by simpa using h
      have step1 : (t'.getD m d :: y :: t'.set m x).Perm (y :: t'.getD m d :: t'.set m x) :=
        List.Perm.swap y (t'.getD m d) (t'.set m x)
      have step2 : (y :: t'.getD m d :: t'.set m x).Perm (y :: x :: t') :=
        (ih m x hm).cons y
      have step3 : (y :: x :: t').Perm (x :: y :: t') := List.Perm.swap x y t'
      simpa using (step1.trans step2).trans step3

lemma set_set_perm {α : Type} (d : α) :
    ∀ (l : List α) (i j : Nat), i < l.length → j < l.length →
      ((l.set i (l.getD j d)).set j (l.getD i d)).Perm l := by
  intro l
  induction l with
  | nil => intro i j h _; simp at h
  | cons x t ih =>
    intro i j hi hj
    cases i with
    | zero =>
      cases j with
      | zero => simp
      | succ m =>
        have hm : m < t.length := by simpa using hj
        simpa using getD_cons_set_perm d t m x hm
    | succ n =>
      cases j with
      | zero =>
        have hn : n < t.length := by simpa using hi
        simpa using getD_cons_set_perm d t n x hn
      | succ m =>
        have hn : n < t.length := by simpa using hi
        have hm : m < t.length := by simpa using hj
        simpa using (ih n m hn hm).cons x

lemma take_set_le {α : Type} :
    ∀ (l : List α) (n i : Nat) (v : α), i ≤ n → (l.set n v).take i = l.take i := by
  intro l
  induction l with
  | nil => intros; simp
  | cons x t ih =>
    intro n i v h
    cases i with
    | zero => simp
    | succ i' =>
      cases n with
      | zero => omega
      | succ n' =>
        simp only [List.set_cons_succ, List.take_succ_cons]
        rw [ih n' i' v (Nat.le_of_succ_le_succ h)]

lemma nodup_getD_inj {l : List Str} (h : l.Nodup) {a b : Nat}
    (ha : a < l.length) (hb : b < l.length)
    (he : l.getD a [] = l.getD b []) : a = b := by
  rw [List.getD_eq_getElem l [] ha, List.getD_eq_getElem l [] hb] at he
  have hg : l.get ⟨a, ha⟩ = l.get ⟨b, hb⟩ := by simpa using he
  have := h.get_inj_iff.mp hg
  simpa using this

lemma map_getD_range (l : List Str) :
    (List.range l.length).map (fun i => l.getD i []) = l := by
  apply List.ext_getElem
  · simp
  · intro i h1 h2
    simp only [List.getElem_map, List.getElem_range]
    exact List.getD_eq_getElem l [] h2

/-! ## Properties of availableIndices -/

lemma availableIndices_nodup (students : List Str) (hs : Finset Str) :
    (availableIndices students hs).Nodup :=
  (List.nodup_range _).filter _

lemma availableIndices_mem {students : List Str} {hs : Finset Str} {a : Nat}
    (h : a ∈ availableIndices students hs) :
    a < students.length ∧ students.getD a [] ∉ hs := by
  unfold availableIndices at h
  refine ⟨List.mem_range.mp (List.mem_of_mem_filter h), ?_⟩
  simpa using List.of_mem_filter h

lemma availableIndices_map (students : List Str) (hs : Finset Str) :
    (availableIndices students hs).map (fun i => students.getD i []) =
      students.filter (fun x => decide (x ∉ hs)) := by
  unfold availableIndices
  have h := (List.filter_map (p := fun x => decide (x ∉ hs))
    (fun i => students.getD i []) (List.range students.length)).symm
  rw [map_getD_range] at h
  exact h

lemma availableIndices_length {students : List Str} {hs : Finset Str}
    (hnd : students.Nodup) (hsub : ∀ x ∈ hs, x ∈ students) :
    (availableIndices students hs).length = students.length - hs.card := by
  have hmap := availableIndices_map students hs
  have hlen : (availableIndices students hs).length =
      (students.filter (fun x => decide (x ∉ hs))).length := by
    rw [← hmap, List.length_map]
  have hcard : (students.filter (fun x => decide (x ∈ hs))).length = hs.card := by
    have hnodupf : (students.filter (fun x => decide (x ∈ hs))).Nodup := hnd.filter _
    have htf : (students.filter (fun x => decide (x ∈ hs))).toFinset = hs := by
      ext x
      simp only [List.mem_toFinset, List.mem_filter, decide_eq_true_eq]
      exact ⟨fun h => h.2, fun h => ⟨hsub x h, h⟩⟩
    rw [← List.toFinset_card_of_nodup hnodupf, htf]
  have hsplit := List.length_eq_length_filter_add (l := students)
    (fun x => decide (x ∈ hs))
  have hnotc : students.filter (fun x => !(decide (x ∈ hs))) =
      students.filter (fun x => decide (x ∉ hs)) := by
    apply List.filter_congr
    intro x _
    simp
  rw [hnotc] at hsplit
  omega

/-! ## The selection loop: main invariant -/

lemma getD_set_set {l : List Nat} {i j : Nat} (hi : i < l.length) (hj : j < l.length) :
    ((l.set i (l.getD j 0)).set j (l.getD i 0)).getD i 0 = l.getD j 0 := by
  have hlen : ((l.set i (l.getD j 0)).set j (l.getD i 0)).length = l.length := by simp
  rw [List.getD_eq_getElem _ 0 (by rw [hlen]; exact hi)]
  by_cases h : i = j
  · subst h
    simp [List.getElem_set_self, hi]
  · rw [List.getElem_set_ne (fun he => h he.symm) (by simp [hi])]
    rw [List.getElem_set_self (by simp [hi])]

/-- The invariant of the selection loop of SimpleRandom: starting at position `i`
    with `k` draws to go, over distinct in-range indices whose entries are outside
    the exhaustion set, the loop returns `k` entries that are pairwise distinct
    roster members outside the initial exhaustion set, and the final exhaustion
    set is the initial one plus exactly the returned entries. -/
lemma pickLoop_main (students : List Str) (hstu : students.Nodup) (rand : Nat → Nat) :
    ∀ (k i : Nat) (avail : List Nat) (hs : Finset Str),
      i + k ≤ avail.length →
      (avail.drop i).Nodup →
      (∀ a ∈ avail.drop i, a < students.length) →
      (∀ a ∈ avail.drop i, students.getD a [] ∉ hs) →
      (pickLoop students rand i k avail hs).1.length = k ∧
      (pickLoop students rand i k avail hs).1.Nodup ∧
      (∀ x ∈ (pickLoop students rand i k avail hs).1, x ∈ students ∧ x ∉ hs) ∧
      (pickLoop students rand i k avail hs).2 =
        hs ∪ (pickLoop students rand i k avail hs).1.toFinset := by
  intro k
  induction k with
  | zero =>
    intro i avail hs _ _ _ _
    simp [pickLoop]
  | succ k ih =>
    intro i avail hs hik hnd hlt hnot
    have hi : i < avail.length := by omega
    set j := clampDraw (rand i) i (avail.length - 1) with hj_def
    have hij : i ≤ j := le_max_left _ _
    have hjlt : j < avail.length := by
      rw [hj_def]
      unfold clampDraw
      have h2 : min (rand i) (avail.length - 1) < avail.length :=
        lt_of_le_of_lt (min_le_right _ _) (by omega)
      exact max_lt_iff.mpr ⟨hi, h2⟩
    set avail2 := (avail.set i (avail.getD j 0)).set j (avail.getD i 0) with havail2
    have len2 : avail2.length = avail.length := by simp [havail2]
    have perm : avail2.Perm avail := set_set_perm 0 avail i j hi hjlt
    have take_eq : avail2.take i = avail.take i := by
      rw [havail2, take_set_le _ j i _ hij, take_set_le _ i i _ le_rfl]
    have h1 : avail2.take i ++ avail2.drop i = avail2 := List.take_append_drop i avail2
    have h2 : avail.take i ++ avail.drop i = avail := List.take_append_drop i avail
    rw [take_eq] at h1
    have hp : (avail.take i ++ avail2.drop i).Perm (avail.take i ++ avail.drop i) := by
      rw [h1, h2]; exact perm
    have drop_perm : (avail2.drop i).Perm (avail.drop i) :=
      (List.perm_append_left_iff _).mp hp
    have b_at_i : avail2.getD i 0 = avail.getD j 0 := getD_set_set hi hjlt
    have hi2 : i < avail2.length := by rw [len2]; exact hi
    have decomp : avail2.drop i = avail.getD j 0 :: avail2.drop (i + 1) := by
      rw [List.drop_eq_getElem_cons hi2, ← List.getD_eq_getElem avail2 0 hi2, b_at_i]
    set sel := students.getD (avail2.getD i 0) [] with hsel_def
    have hsel_eq : sel = students.getD (avail.getD j 0) [] := by rw [hsel_def, b_at_i]
    have bj_mem_drop : avail.getD j 0 ∈ avail.drop i := by
      have : avail.getD j 0 ∈ avail2.drop i := by rw [decomp]; exact List.mem_cons_self _ _
      exact drop_perm.subset this
    have hblt : avail.getD j 0 < students.length := hlt _ bj_mem_drop
    have hsel_not : sel ∉ hs := by rw [hsel_eq]; exact hnot _ bj_mem_drop
    have hsel_mem : sel ∈ students := by
      rw [hsel_eq, List.getD_eq_getElem _ _ hblt]
      exact List.getElem_mem _
    have hnd2 : (avail2.drop i).Nodup := (drop_perm.nodup_iff).mpr hnd
    rw [decomp] at hnd2
    have hbnotin : avail.getD j 0 ∉ avail2.drop (i + 1) := (List.nodup_cons.mp hnd2).1
    have hnd3 : (avail2.drop (i + 1)).Nodup := (List.nodup_cons.mp hnd2).2
    have hmem_drop : ∀ a ∈ avail2.drop (i + 1), a ∈ avail.drop i := by
      intro a ha
      have : a ∈ avail2.drop i := by rw [decomp]; exact List.mem_cons_of_mem _ ha
      exact drop_perm.subset this
    have hlt3 : ∀ a ∈ avail2.drop (i + 1), a < students.length :=
      fun a ha => hlt a (hmem_drop a ha)
    have hnot3 : ∀ a ∈ avail2.drop (i + 1), students.getD a [] ∉ insert sel hs := by
      intro a ha
      rw [Finset.mem_insert]
      rintro (heq | hin)
      · rw [hsel_eq] at heq
        have : a = avail.getD j 0 :=
          nodup_getD_inj hstu (hlt3 a ha) hblt heq
        exact hbnotin (this ▸ ha)
      · exact hnot a (hmem_drop a ha) hin
    have ihres := ih (i + 1) avail2 (insert sel hs)
      (by rw [len2]; omega) hnd3 hlt3 hnot3
    set r := pickLoop students rand (i + 1) k avail2 (insert sel hs) with hr_def
    obtain ⟨ihlen, ihnd, ihmem, ihset⟩ := ihres
    have hunfold : pickLoop students rand i (k + 1) avail hs = (sel :: r.1, r.2) := rfl
    rw [hunfold]
    refine ⟨?_, ?_, ?_, ?_⟩
    · simp [ihlen]
    · refine List.nodup_cons.mpr ⟨?_, ihnd⟩
      intro hmem
      have := (ihmem sel hmem).2
      exact this (Finset.mem_insert_self _ _)
    · intro x hx
      rcases List.mem_cons.mp hx with h | h
      · exact ⟨h ▸ hsel_mem, h ▸ hsel_not⟩
      · obtain ⟨hm, hn⟩ := ihmem x h
        exact ⟨hm, fun hin => hn (Finset.mem_insert_of_mem hin)⟩
    · show r.2 = hs ∪ (sel :: r.1).toFinset
      rw [ihset, List.toFinset_cons]
      ext y
      simp only [Finset.mem_union, Finset.mem_insert]
      tauto

/-! ## The engine invariant -/

lemma importRows_inv :
    ∀ (rows : List Str) (students : List Str) (hashSet : Finset Str),
      students.Nodup → (∀ x ∈ students, x ≠ []) →
      (∀ x, x ∈ hashSet ↔ x ∈ students) →
      (importRows rows students hashSet).1.Nodup ∧
      (∀ x ∈ (importRows rows students hashSet).1, x ≠ []) := by
  intro rows
  induction rows with
  | nil => intro students hashSet h1 h2 _; exact ⟨h1, h2⟩
  | cons row rest ih =>
    intro students hashSet h1 h2 h3
    simp only [importRows]
    split
    · exact ⟨h1, h2⟩
    · split
      · exact ih students hashSet h1 h2 h3
      · split
        · exact ih students hashSet h1 h2 h3
        · rename_i hcap hne hnotin
          apply ih
          · rw [List.nodup_append]
            refine ⟨h1, List.nodup_singleton _, ?_⟩
            intro x hx hx1
            have : x = cppTrim (extractName row) := by simpa using hx1
            subst this
            exact hnotin ((h3 _).mpr hx)
          · intro x hx
            rcases List.mem_append.mp hx with h | h
            · exact h2 x h
            · have : x = cppTrim (extractName row) := by simpa using h
              subst this
              exact hne
          · intro x
            simp only [Finset.mem_insert, List.mem_append, List.mem_singleton, h3]
            tauto

lemma randomImport_inv (st : EngineState) (file : Option (List Str)) :
    Inv (randomImport st file).1 := by
  cases file with
  | none => exact ⟨List.nodup_nil, by simp [randomImport], by simp [randomImport]⟩
  | some lines =>
    have h := importRows_inv (lines.drop 1) [] ∅ List.nodup_nil (by simp) (by simp)
    simp only [randomImport]
    split
    · rename_i students e heq
      rw [heq] at h
      exact ⟨h.1, h.2, by simp⟩
    · rename_i students heq
      rw [heq] at h
      split
      · exact ⟨List.nodup_nil, by simp, by simp⟩
      · exact ⟨h.1, h.2, by simp⟩

lemma clearHistory_inv (st : EngineState) (h : Inv st) : Inv (clearHistory st) :=
  ⟨h.1, h.2.1, by simp [clearHistory]⟩

lemma afterAutoClear_subset (st : EngineState)
    (hsub : ∀ x ∈ st.randomHashSet, x ∈ st.students) :
    ∀ x ∈ afterAutoClear st, x ∈ st.students := by
  unfold afterAutoClear
  split
  · simp
  · exact hsub

lemma availableIndices_length_le (students : List Str) (hs : Finset Str) :
    (availableIndices students hs).length ≤ students.length := by
  unfold availableIndices
  exact le_trans (List.length_filter_le _ _) (by simp)

/-- Characterization of a SimpleRandom call that reaches the selection loop. -/
lemma simpleRandom_ok_spec (st : EngineState) (number : Nat) (rand : Nat → Nat)
    (hinit : st.isInitialized = true)
    (hnd : st.students.Nodup)
    (hnum : number ≤ (availableIndices st.students (afterAutoClear st)).length) :
    ∃ out : List Str,
      simpleRandom st number rand =
        ({ st with randomHashSet := afterAutoClear st ∪ out.toFinset }, .ok out) ∧
      out.length = number ∧ out.Nodup ∧
      (∀ x ∈ out, x ∈ st.students ∧ x ∉ afterAutoClear st) := by
  have hnum2 : number ≤ st.students.length :=
    le_trans hnum (availableIndices_length_le _ _)
  have hmain := pickLoop_main st.students hnd rand number 0
    (availableIndices st.students (afterAutoClear st)) (afterAutoClear st)
    (by simpa using hnum)
    (by simpa using availableIndices_nodup st.students (afterAutoClear st))
    (by simp only [List.drop_zero]; exact fun a ha => (availableIndices_mem ha).1)
    (by simp only [List.drop_zero]; exact fun a ha => (availableIndices_mem ha).2)
  refine ⟨(pickLoop st.students rand 0 number
    (availableIndices st.students (afterAutoClear st)) (afterAutoClear st)).1,
    ?_, hmain.1, hmain.2.1, fun x hx => ((hmain.2.2.1) x hx)⟩
  unfold simpleRandom
  rw [if_neg (by simp [hinit]), if_neg (by omega), if_neg (by omega)]
  rw [← hmain.2.2.2]

lemma simpleRandom_insufficient (st : EngineState) (number : Nat) (rand : Nat → Nat)
    (hinit : st.isInitialized = true)
    (hnum2 : number ≤ st.students.length)
    (hins : (availableIndices st.students (afterAutoClear st)).length < number) :
    simpleRandom st number rand =
      ({ st with randomHashSet := afterAutoClear st }, .err .insufficientAvailable) := by
  unfold simpleRandom
  rw [if_neg (by simp [hinit]), if_neg (by omega), if_pos hins]

lemma simpleRandom_inv (st : EngineState) (number : Nat) (rand : Nat → Nat)
    (h : Inv st) : Inv (simpleRandom st number rand).1 := by
  obtain ⟨hnd, hne, hsub⟩ := h
  by_cases hinit : st.isInitialized = true
  · by_cases hnum2 : number ≤ st.students.length
    · by_cases hins : (availableIndices st.students (afterAutoClear st)).length < number
      · rw [simpleRandom_insufficient st number rand hinit hnum2 hins]
        exact ⟨hnd, hne, fun x hx => afterAutoClear_subset st hsub x hx⟩
      · obtain ⟨out, heq, _, _, hmem⟩ := simpleRandom_ok_spec st number rand hinit hnd
          (by omega)
        rw [heq]
        refine ⟨hnd, hne, ?_⟩
        intro x hx
        rcases Finset.mem_union.mp hx with h | h
        · exact afterAutoClear_subset st hsub x h
        · exact (hmem x (List.mem_toFinset.mp h)).1
    · unfold simpleRandom
      rw [if_neg (by simp [hinit]), if_pos (by omega)]
      exact ⟨hnd, hne, hsub⟩
  · unfold simpleRandom
    rw [if_pos (by simpa using hinit)]
    exact ⟨hnd, hne, hsub⟩

/-- Every reachable state satisfies the internal invariant. -/
lemma reachable_inv {st : EngineState} (h : Reachable st) : Inv st := by
  induction h with
  | init => exact ⟨List.nodup_nil, by simp [initialState], by simp [initialState]⟩
  | importStep file _ ih => exact randomImport_inv _ file
  | clear _ ih => exact clearHistory_inv _ ih
  | pick number rand _ ih => exact simpleRandom_inv _ number rand ih

/-! ## Import processing lemmas -/

lemma extractName_short {row : Str} (h : (cppSplit row).length < 2) :
    extractName row = [] := by
  unfold extractName
  rw [List.get?_eq_none.mpr (by omega)]

lemma importRows_error_capacity :
    ∀ (rows students : List Str) (hashSet : Finset Str) (e : ImportError),
      (importRows rows students hashSet).2 = some e →
      e = ImportError.capacityExceeded := by
  intro rows
  induction rows with
  | nil => intro students hashSet e h; simp [importRows] at h
  | cons row rest ih =>
    intro students hashSet e h
    simp only [importRows] at h
    by_cases hc : vectorMaxSize ≤ students.length
    · rw [if_pos hc] at h
      simp at h
      exact h.symm
    · rw [if_neg hc] at h
      by_cases hn : cppTrim (extractName row) = []
      · rw [if_pos hn] at h; exact ih _ _ _ h
      · rw [if_neg hn] at h
        by_cases hm : cppTrim (extractName row) ∈ hashSet
        · rw [if_pos hm] at h; exact ih _ _ _ h
        · rw [if_neg hm] at h; exact ih _ _ _ h

lemma importRows_skip_junk :
    ∀ (rows students : List Str) (hashSet : Finset Str),
      students.length + rows.length ≤ vectorMaxSize →
      importRows rows students hashSet =
        importRows (rows.filter (fun r => decide (2 ≤ (cppSplit r).length)))
          students hashSet := by
  intro rows
  induction rows with
  | nil => intros; rfl
  | cons row rest ih =>
    intro students hashSet hcap
    simp only [List.length_cons] at hcap
    by_cases hrow : 2 ≤ (cppSplit row).length
    · rw [List.filter_cons_of_pos (by simpa using hrow)]
      simp only [importRows]
      by_cases hc : vectorMaxSize ≤ students.length
      · rw [if_pos hc, if_pos hc]
      · rw [if_neg hc, if_neg hc]
        by_cases hn : cppTrim (extractName row) = []
        · rw [if_pos hn, if_pos hn]
          exact ih students hashSet (by omega)
        · rw [if_neg hn, if_neg hn]
          by_cases hm : cppTrim (extractName row) ∈ hashSet
          · rw [if_pos hm, if_pos hm]
            exact ih students hashSet (by omega)
          · rw [if_neg hm, if_neg hm]
            exact ih (students ++ [cppTrim (extractName row)]) _
              (by simp only [List.length_append, List.length_singleton]; omega)
    · rw [List.filter_cons_of_neg (by simpa using hrow)]
      have hname : cppTrim (extractName row) = [] := by
        rw [extractName_short (by omega)]
        rfl
      simp only [importRows]
      rw [if_neg (by omega : ¬ vectorMaxSize ≤ students.length), if_pos hname]
      exact ih students hashSet (by omega)

lemma importRows_success_spec :
    ∀ (rows students : List Str) (hashSet : Finset Str),
      (∀ x, x ∈ hashSet ↔ x ∈ students) →
      (importRows rows students hashSet).2 = none →
      (importRows rows students hashSet).1 = firstOccurAux students (rowNames rows) := by
  intro rows
  induction rows with
  | nil => intro students hashSet _ _; rfl
  | cons row rest ih =>
    intro students hashSet hcoup hok
    have hrn : rowNames (row :: rest) =
        (if cppTrim (extractName row) = [] then rowNames rest
         else cppTrim (extractName row) :: rowNames rest) := by
      unfold rowNames
      simp only [List.map_cons]
      by_cases h : cppTrim (extractName row) = []
      · rw [if_pos h, List.filter_cons_of_neg (by simpa using h)]
      · rw [if_neg h, List.filter_cons_of_pos (by simpa using h)]
    by_cases hc : vectorMaxSize ≤ students.length
    · exfalso
      simp only [importRows, if_pos hc] at hok
      exact Option.some_ne_none _ hok
    · simp only [importRows, if_neg hc] at hok ⊢
      by_cases hn : cppTrim (extractName row) = []
      · rw [if_pos hn] at hok ⊢
        rw [hrn, if_pos hn]
        exact ih students hashSet hcoup hok
      · rw [if_neg hn] at hok ⊢
        rw [hrn, if_neg hn]
        by_cases hm : cppTrim (extractName row) ∈ hashSet
        · rw [if_pos hm] at hok ⊢
          simp only [firstOccurAux]
          rw [if_pos ((hcoup _).mp hm)]
          exact ih students hashSet hcoup hok
        · rw [if_neg hm] at hok ⊢
          simp only [firstOccurAux]
          rw [if_neg (fun hmem => hm ((hcoup _).mpr hmem))]
          apply ih
          · intro x
            simp only [Finset.mem_insert, List.mem_append, List.mem_singleton, hcoup]
            tauto
          · exact hok

lemma firstOccurAux_mem :
    ∀ (names acc : List Str) (x : Str),
      x ∈ firstOccurAux acc names ↔ x ∈ acc ∨ x ∈ names := by
  intro names
  induction names with
  | nil => intro acc x; simp [firstOccurAux]
  | cons n rest ih =>
    intro acc x
    simp only [firstOccurAux]
    by_cases h : n ∈ acc
    · rw [if_pos h, ih]
      simp only [List.mem_cons]
      constructor
      · tauto
      · rintro (hx | hx | hx)
        · exact Or.inl hx
        · exact Or.inl (hx ▸ h)
        · exact Or.inr hx
    · rw [if_neg h, ih]
      simp only [List.mem_append, List.mem_singleton, List.mem_cons]
      tauto

/-! ## Inversion of successful picks and clean runs -/

lemma pick_ok_inversion {st st' : EngineState} {out : List Str} {n : Nat}
    {rand : Nat → Nat} (hInv : Inv st)
    (h : simpleRandom st n rand = (st', PickResult.ok out)) :
    out.Nodup ∧ out.length = n ∧ st'.students = st.students ∧
    st'.isInitialized = st.isInitialized ∧
    st'.randomHashSet = afterAutoClear st ∪ out.toFinset ∧
    (∀ x ∈ out, x ∈ st.students ∧ x ∉ afterAutoClear st) := by
  obtain ⟨hnd, hne, hsub⟩ := hInv
  by_cases hinit : st.isInitialized = true
  · have hn2 : n ≤ st.students.length := by
      by_contra hc
      unfold simpleRandom at h
      rw [if_neg (by simp [hinit]), if_pos (by omega)] at h
      simp at h
    have hins : ¬ (availableIndices st.students (afterAutoClear st)).length < n := by
      by_contra hc
      rw [simpleRandom_insufficient st n rand hinit hn2 hc] at h
      simp at h
    obtain ⟨out2, heq, hlen2, hnd2, hmem2⟩ :=
      simpleRandom_ok_spec st n rand hinit hnd (by omega)
    rw [heq] at h
    injection h with h1 h2
    injection h2 with h2
    subst h2
    refine ⟨hnd2, hlen2, ?_, ?_, ?_, hmem2⟩
    · rw [← h1]
    · rw [← h1]
    · rw [← h1]
  · exfalso
    unfold simpleRandom at h
    rw [if_pos (by simpa using hinit)] at h
    simp at h

lemma pick_step_clean {st st' : EngineState} {out : List Str} {n : Nat}
    {rand : Nat → Nat} (hInv : Inv st)
    (hcard : st.randomHashSet.card < st.students.length)
    (h : simpleRandom st n rand = (st', PickResult.ok out)) :
    out.Nodup ∧ (∀ x ∈ out, x ∉ st.randomHashSet) ∧
    st'.students = st.students ∧
    st'.randomHashSet = st.randomHashSet ∪ out.toFinset := by
  have hcl : afterAutoClear st = st.randomHashSet := by
    unfold afterAutoClear
    rw [if_neg (by omega)]
  obtain ⟨h1, _, h3, _, h5, h6⟩ := pick_ok_inversion hInv h
  rw [hcl] at h5 h6
  exact ⟨h1, fun x hx => (h6 x hx).2, h3, h5⟩

lemma cleanRun_props :
    ∀ {s sF : EngineState} {outs : List Str}, CleanRun s outs sF → Inv s →
      outs.Nodup ∧ (∀ x ∈ outs, x ∉ s.randomHashSet) ∧
      sF.students = s.students ∧
      sF.randomHashSet = s.randomHashSet ∪ outs.toFinset := by
  intro s sF outs hrun
  induction hrun with
  | nil s => intro _; simp
  | cons n rand hcard heq hrest ih =>
    intro hInv
    rename_i s s' s'' out outs'
    have hstep := pick_step_clean hInv hcard heq
    have hInv' : Inv s' := by
      have h2 := simpleRandom_inv s n rand hInv
      rw [heq] at h2
      exact h2
    obtain ⟨ihnd, ihnot, ihstu, ihset⟩ := ih hInv'
    obtain ⟨hnd, hnot, hstu, hset⟩ := hstep
    refine ⟨?_, ?_, ?_, ?_⟩
    · rw [List.nodup_append]
      refine ⟨hnd, ihnd, ?_⟩
      intro x hx hx2
      have : x ∈ s'.randomHashSet := by
        rw [hset]
        exact Finset.mem_union_right _ (List.mem_toFinset.mpr hx)
      exact ihnot x hx2 this
    · intro x hx
      rcases List.mem_append.mp hx with hx | hx
      · exact hnot x hx
      · intro hin
        exact ihnot x hx (by rw [hset]; exact Finset.mem_union_left _ hin)
    · rw [ihstu, hstu]
    · rw [ihset, hset, List.toFinset_append, Finset.union_assoc]

/-! ## Quote stripping as two independent erasures -/

lemma stripQuotes_eq_drops (t : Str) :
    stripQuotes t = dropTrailingQuote (dropLeadingQuote t) := by
  unfold stripQuotes dropLeadingQuote dropTrailingQuote
  by_cases h : t.head? = some '\"'
  · have hne : t ≠ [] := by
      intro he
      rw [he] at h
      simp at h
    by_cases h2 : t.tail.getLast? = some '\"'
    · have hne2 : t.tail ≠ [] := by
        intro he
        rw [he] at h2
        simp at h2
      simp [h, hne, h2, hne2]
    · simp [h, hne, h2]
  · by_cases h2 : t.getLast? = some '\"'
    · have hne2 : t ≠ [] := by
        intro he
        rw [he] at h2
        simp at h2
      simp [h, h2, hne2]
    · simp [h, h2]

/-! ## Claim C1 -/

/-- Claim C1 is false on the code: RandomImport clears the roster and the
    exhaustion set before opening the file, so after a failing import of an
    unavailable source the previously loaded (non-empty) roster is gone.  Here
    the state before the call has roster Alice/Bob/Carol, the call fails with
    sourceUnavailable, and the state after the call differs from the state
    before: its roster is empty. -/
theorem import_failure_counterexample :
    stateABC.students ≠ [] ∧
    (randomImport stateABC none).2 = some ImportError.sourceUnavailable ∧
    (randomImport stateABC none).1 ≠ stateABC ∧
    (randomImport stateABC none).1.students = [] := by
  refine ⟨by decide, by decide, by decide, by decide⟩

/-- Claim C1 (amended): a failing import call does not preserve the prior state;
    it clears the roster and the exhaustion set at its start and leaves them so
    (except that a capacity failure leaves the partial roster accepted up to
    that row), while the InitializedFlag keeps its prior value on every failure
    path. -/
theorem import_failure_state (st : EngineState) (file : Option (List Str))
    (e : ImportError) (h : (randomImport st file).2 = some e) :
    (randomImport st file).1.isInitialized = st.isInitialized ∧
    (randomImport st file).1.randomHashSet = ∅ ∧
    (e ≠ ImportError.capacityExceeded → (randomImport st file).1.students = []) := by
  cases file with
  | none => exact ⟨rfl, rfl, fun _ => rfl⟩
  | some lines =>
    rcases heq : importRows (lines.drop 1) [] ∅ with ⟨studs, err⟩
    cases err with
    | some e2 =>
      have hcap : e2 = ImportError.capacityExceeded :=
        importRows_error_capacity (lines.drop 1) [] ∅ e2 (by rw [heq])
      have h12 : randomImport st (some lines) =
          ({ students := studs, isInitialized := st.isInitialized,
             randomHashSet := ∅ }, some e2) := by
        unfold randomImport
        simp only []
        rw [heq]
      rw [h12] at h
      rw [h12]
      refine ⟨rfl, rfl, fun hne => ?_⟩
      exfalso
      apply hne
      have he : e2 = e := Option.some.inj h
      rw [← he]
      exact hcap
    | none =>
      by_cases hnil : studs = []
      · have h12 : randomImport st (some lines) =
            ({ students := [], isInitialized := st.isInitialized,
               randomHashSet := ∅ }, some ImportError.emptyResult) := by
          unfold randomImport
          simp only []
          rw [heq]
          simp only []
          rw [if_pos hnil]
        rw [h12]
        exact ⟨rfl, rfl, fun _ => rfl⟩
      · have h12 : randomImport st (some lines) =
            ({ students := studs, isInitialized := true,
               randomHashSet := ∅ }, none) := by
          unfold randomImport
          simp only []
          rw [heq]
          simp only []
          rw [if_neg hnil]
        rw [h12] at h
        simp at h

/-- Witness for the amended C1 at a concrete failing import. -/
theorem import_failure_state_witness :
    (randomImport stateABC none).1.isInitialized = stateABC.isInitialized ∧
    (randomImport stateABC none).1.randomHashSet = ∅ ∧
    (ImportError.sourceUnavailable ≠ ImportError.capacityExceeded →
      (randomImport stateABC none).1.students = []) :=
  import_failure_state stateABC none ImportError.sourceUnavailable (by decide)

/-! ## Claim C2 -/

/-- Claim C2 is false on the code: a reachable state can have InitializedFlag
    true and an empty roster.  After a successful import (flag true, roster
    Alice/Bob/Carol), an import whose file cannot be opened clears the roster
    but leaves the flag true. -/
theorem initialized_empty_roster_counterexample :
    Reachable stateAfterFailedImport ∧
    stateAfterFailedImport.isInitialized = true ∧
    stateAfterFailedImport.students = [] :=
  ⟨Reachable.importStep none (Reachable.importStep (some sampleLines) Reachable.init),
   by decide, by decide⟩

/-- Claim C2 (amended): in every reachable state the roster contains no
    duplicate entries (case-sensitive exact match) and no empty entries, and
    every successful import installs a non-empty roster; however, after a
    failed import the roster can be empty while InitializedFlag stays true. -/
theorem reachable_roster_wellformed (st : EngineState) (h : Reachable st) :
    st.students.Nodup ∧ (∀ x ∈ st.students, x ≠ []) ∧
    (∀ file, (randomImport st file).2 = none →
      (randomImport st file).1.students ≠ []) := by
  obtain ⟨h1, h2, _⟩ := reachable_inv h
  refine ⟨h1, h2, ?_⟩
  intro file hok
  cases file with
  | none => simp [randomImport] at hok
  | some lines =>
    rcases heq : importRows (lines.drop 1) [] ∅ with ⟨studs, err⟩
    cases err with
    | some e2 =>
      have h12 : randomImport st (some lines) =
          ({ students := studs, isInitialized := st.isInitialized,
             randomHashSet := ∅ }, some e2) := by
        unfold randomImport
        simp only []
        rw [heq]
      rw [h12] at hok
      simp at hok
    | none =>
      by_cases hnil : studs = []
      · have h12 : randomImport st (some lines) =
            ({ students := [], isInitialized := st.isInitialized,
               randomHashSet := ∅ }, some ImportError.emptyResult) := by
          unfold randomImport
          simp only []
          rw [heq]
          simp only []
          rw [if_pos hnil]
        rw [h12] at hok
        simp at hok
      · have h12 : randomImport st (some lines) =
            ({ students := studs, isInitialized := true,
               randomHashSet := ∅ }, none) := by
          unfold randomImport
          simp only []
          rw [heq]
          simp only []
          rw [if_neg hnil]
        rw [h12]
        simpa using hnil

/-- Witness for the amended C2 at the concrete imported state. -/
theorem reachable_roster_wellformed_witness : stateABC.students.Nodup :=
  (reachable_roster_wellformed stateABC
    (Reachable.importStep (some sampleLines) Reachable.init)).1

/-! ## Claim C6 -/

/-- Claim C6: on an initialized engine, a pick of more than the total roster
    size fails with requestExceedsRoster, whatever the exhaustion set holds
    (no hypothesis constrains it), and the comparison is against the total
    roster size; the state is unchanged. -/
theorem pick_request_exceeds_roster (st : EngineState) (n : Nat) (rand : Nat → Nat)
    (hinit : st.isInitialized = true) (hn : st.students.length < n) :
    simpleRandom st n rand = (st, PickResult.err PickError.requestExceedsRoster) := by
  unfold simpleRandom
  rw [if_neg (by simp [hinit]), if_pos hn]

/-- Witness for C6: picking 4 from the three-name roster fails. -/
theorem pick_request_exceeds_roster_witness :
    simpleRandom stateABC 4 rZero =
      (stateABC, PickResult.err PickError.requestExceedsRoster) :=
  pick_request_exceeds_roster stateABC 4 rZero (by decide) (by decide)

/-! ## Claim C8 -/

/-- Claim C8 is false on the code: quote stripping is not restricted to a
    matching pair.  On the field consisting of a lone leading quote before
    "ab", the code strips the quote, while the claim's matching-pair rule
    keeps the field unchanged. -/
theorem quote_strip_counterexample :
    stripQuotes ['\"', 'a', 'b'] = ['a', 'b'] ∧
    claimPairStrip ['\"', 'a', 'b'] = ['\"', 'a', 'b'] ∧
    stripQuotes ['\"', 'a', 'b'] ≠ claimPairStrip ['\"', 'a', 'b'] := by
  refine ⟨by decide, by decide, by decide⟩

/-- Claim C8 (amended): the extracted field undergoes two independent
    single-character erasures - a leading quote is removed if present, then a
    trailing quote of the remainder is removed if present (so a matched pair is
    removed, but a lone leading or lone trailing quote is removed too) - and
    whitespace trimming happens after this stripping. -/
theorem quote_strip_amended :
    (∀ t : Str, stripQuotes t = dropTrailingQuote (dropLeadingQuote t)) ∧
    (∀ row token : Str, (cppSplit row).get? 1 = some token →
      cppTrim (extractName row) =
        cppTrim (dropTrailingQuote (dropLeadingQuote token))) := by
  refine ⟨stripQuotes_eq_drops, ?_⟩
  intro row token h
  unfold extractName
  rw [h]
  show cppTrim (stripQuotes token) = _
  rw [stripQuotes_eq_drops]

/-- Witness for the amended C8 on the concrete row "1,\"Alice". -/
theorem quote_strip_amended_witness :
    cppTrim (extractName ('1' :: ',' :: '\"' :: 'A' :: 'l' :: [])) =
      cppTrim (dropTrailingQuote (dropLeadingQuote ('\"' :: 'A' :: 'l' :: []))) :=
  quote_strip_amended.2 ('1' :: ',' :: '\"' :: 'A' :: 'l' :: [])
    ('\"' :: 'A' :: 'l' :: []) (by decide)

/-! ## Claim C10 -/

/-- Claim C10: on an initialized engine, pick(0) succeeds with the empty
    sequence; it clears the exhaustion set when its size has reached the roster
    size, and otherwise changes nothing at all. -/
theorem pick_zero_spec (st : EngineState) (rand : Nat → Nat)
    (hinit : st.isInitialized = true) :
    (st.students.length ≤ st.randomHashSet.card →
      simpleRandom st 0 rand = ({ st with randomHashSet := ∅ }, PickResult.ok [])) ∧
    (st.randomHashSet.card < st.students.length →
      simpleRandom st 0 rand = (st, PickResult.ok [])) := by
  constructor
  · intro hfull
    unfold simpleRandom
    rw [if_neg (by simp [hinit]), if_neg (by omega), if_neg (by omega)]
    show ({ st with randomHashSet := afterAutoClear st }, _) = _
    unfold afterAutoClear
    rw [if_pos hfull]
    rfl
  · intro hsmall
    unfold simpleRandom
    rw [if_neg (by simp [hinit]), if_neg (by omega), if_neg (by omega)]
    show ({ st with randomHashSet := afterAutoClear st }, _) = _
    unfold afterAutoClear
    rw [if_neg (by omega)]
    rfl

/-- Witness for C10 at the partially exhausted concrete state: pick(0) is a
    no-op there. -/
theorem pick_zero_spec_witness :
    simpleRandom statePicked2 0 rZero = (statePicked2, PickResult.ok []) :=
  (pick_zero_spec statePicked2 rZero (by decide)).2 (by decide)

/-! ## Claim C3 -/

/-- Claim C3 is false on the code: the insufficientAvailable branch can fire for
    a pick of n ≤ roster size.  Concretely, after importing three names and
    picking two, the reachable state statePicked2 is initialized with roster size
    3 and exhaustion set of size 2, yet pick(2) fails with
    insufficientAvailable. -/
theorem insufficient_available_counterexample :
    Reachable statePicked2 ∧ statePicked2.isInitialized = true ∧
    2 ≤ statePicked2.students.length ∧
    (simpleRandom statePicked2 2 rZero).2 =
      PickResult.err PickError.insufficientAvailable :=
  ⟨Reachable.pick 2 rZero (Reachable.importStep (some sampleLines) Reachable.init),
   by decide, by decide, by decide⟩

/-- Claim C3 (amended): for a pick(n) on an initialized reachable engine with
    n ≤ roster size, the insufficientAvailable branch is taken exactly when the
    exhaustion set is still strictly smaller than the roster (so no automatic
    clear happens) and n exceeds the number of still-available entries,
    roster size minus exhaustion-set size. -/
theorem insufficient_available_iff (st : EngineState) (n : Nat) (rand : Nat → Nat)
    (h : Reachable st) (hinit : st.isInitialized = true)
    (hn : n ≤ st.students.length) :
    ((simpleRandom st n rand).2 = PickResult.err PickError.insufficientAvailable ↔
      (st.randomHashSet.card < st.students.length ∧
       st.students.length - st.randomHashSet.card < n)) := by
  obtain ⟨hnd, hne, hsub⟩ := reachable_inv h
  by_cases hfull : st.students.length ≤ st.randomHashSet.card
  · have hclear : afterAutoClear st = ∅ := by
      unfold afterAutoClear
      rw [if_pos hfull]
    have hlen : (availableIndices st.students (afterAutoClear st)).length =
        st.students.length := by
      rw [hclear]
      have h0 := @availableIndices_length st.students (∅ : Finset Str) hnd (by simp)
      simpa using h0
    obtain ⟨out, heq, _, _, _⟩ := simpleRandom_ok_spec st n rand hinit hnd (by omega)
    rw [heq]
    constructor
    · intro hcontra
      simp at hcontra
    · intro hcontra
      omega
  · have hclear : afterAutoClear st = st.randomHashSet := by
      unfold afterAutoClear
      rw [if_neg hfull]
    have hlen : (availableIndices st.students (afterAutoClear st)).length =
        st.students.length - st.randomHashSet.card := by
      rw [hclear]
      exact availableIndices_length hnd hsub
    by_cases hins : (availableIndices st.students (afterAutoClear st)).length < n
    · rw [simpleRandom_insufficient st n rand hinit hn hins]
      constructor
      · intro _
        omega
      · intro _
        rfl
    · obtain ⟨out, heq, _, _, _⟩ := simpleRandom_ok_spec st n rand hinit hnd (by omega)
      rw [heq]
      constructor
      · intro hcontra
        simp at hcontra
      · intro hcontra
        omega

/-- Witness for the amended C3: at the concrete reachable state the criterion
    holds, so the pick fails with insufficientAvailable. -/
theorem insufficient_available_iff_witness :
    (simpleRandom statePicked2 2 rZero).2 =
      PickResult.err PickError.insufficientAvailable :=
  (insufficient_available_iff statePicked2 2 rZero
    (Reachable.pick 2 rZero (Reachable.importStep (some sampleLines) Reachable.init))
    (by decide) (by decide)).mpr (by decide)

/-! ## Claim C4 -/

/-- Claim C4: once the exhaustion set has reached the full roster size, the next
    pick(n) with n ≤ roster size clears the exhaustion set at its start and
    succeeds with n entries - it never fails with insufficientAvailable - and
    afterwards the exhaustion set holds exactly the names just returned (so
    previously seen entries may be returned again). -/
theorem pick_after_full_cycle (st : EngineState) (n : Nat) (rand : Nat → Nat)
    (h : Reachable st) (hinit : st.isInitialized = true)
    (hcard : st.randomHashSet.card = st.students.length)
    (hn : n ≤ st.students.length) :
    ∃ out : List Str,
      simpleRandom st n rand =
        ({ st with randomHashSet := out.toFinset }, PickResult.ok out) ∧
      out.length = n := by
  obtain ⟨hnd, hne, hsub⟩ := reachable_inv h
  have hclear : afterAutoClear st = ∅ := by
    unfold afterAutoClear
    rw [if_pos (by omega)]
  have hlen : (availableIndices st.students (afterAutoClear st)).length =
      st.students.length := by
    rw [hclear]
    have h0 := @availableIndices_length st.students (∅ : Finset Str) hnd (by simp)
    simpa using h0
  obtain ⟨out, heq, hlen2, _, _⟩ := simpleRandom_ok_spec st n rand hinit hnd (by omega)
  refine ⟨out, ?_, hlen2⟩
  rw [heq, hclear, Finset.empty_union]

/-- Witness for C4 at the fully exhausted concrete state. -/
theorem pick_after_full_cycle_witness :
    ∃ out : List Str,
      simpleRandom stateExhausted 3 rZero =
        ({ stateExhausted with randomHashSet := out.toFinset }, PickResult.ok out) ∧
      out.length = 3 :=
  pick_after_full_cycle stateExhausted 3 rZero
    (Reachable.pick 1 rZero (Reachable.pick 2 rZero
      (Reachable.importStep (some sampleLines) Reachable.init)))
    (by decide) (by decide) (by decide)

/-! ## Claim C5 -/

/-- Claim C5: starting from any reachable state, over any sequence of successful
    picks during which no automatic exhaustion reset fires, the concatenation of
    all returned entries has no duplicates; in particular every single successful
    pick(n) returns n pairwise distinct entries. -/
theorem pick_unique_within_cycle (st : EngineState) (h : Reachable st) :
    (∀ outs stF, CleanRun st outs stF → outs.Nodup) ∧
    (∀ (n : Nat) (rand : Nat → Nat) (st' : EngineState) (out : List Str),
      simpleRandom st n rand = (st', PickResult.ok out) →
      out.Nodup ∧ out.length = n) := by
  have hInv := reachable_inv h
  constructor
  · intro outs stF hrun
    exact (cleanRun_props hrun hInv).1
  · intro n rand st' out heq
    obtain ⟨h1, h2, _⟩ := pick_ok_inversion hInv heq
    exact ⟨h1, h2⟩

/-- Witness for C5: the concrete pick of two from the imported state returns the
    two distinct names Alice and Bob. -/
theorem pick_unique_within_cycle_witness :
    pickedAB.Nodup ∧ pickedAB.length = 2 :=
  (pick_unique_within_cycle stateABC
    (Reachable.importStep (some sampleLines) Reachable.init)).2
    2 rZero statePicked2 pickedAB (by decide)

/-! ## Claim C7 -/

/-- Claim C7: a successful import yields exactly the first-occurrence
    deduplication of the candidate names (quote-stripped, trimmed second
    columns of the data rows, empty ones skipped): each distinct name appears
    exactly once, in order of first appearance, later duplicates silently
    dropped. -/
theorem import_dedup_first_wins (st : EngineState) (lines : List Str)
    (h : (randomImport st (some lines)).2 = none) :
    (randomImport st (some lines)).1.students =
      firstOccurAux [] (rowNames (lines.drop 1)) ∧
    (randomImport st (some lines)).1.students.Nodup ∧
    (∀ x, x ∈ (randomImport st (some lines)).1.students ↔
      x ∈ rowNames (lines.drop 1)) := by
  rcases heq : importRows (lines.drop 1) [] ∅ with ⟨studs, err⟩
  cases err with
  | some e2 =>
    have h12 : randomImport st (some lines) =
        ({ students := studs, isInitialized := st.isInitialized,
           randomHashSet := ∅ }, some e2) := by
      unfold randomImport
      simp only []
      rw [heq]
    rw [h12] at h
    simp at h
  | none =>
    by_cases hnil : studs = []
    · have h12 : randomImport st (some lines) =
          ({ students := [], isInitialized := st.isInitialized,
             randomHashSet := ∅ }, some ImportError.emptyResult) := by
        unfold randomImport
        simp only []
        rw [heq]
        simp only []
        rw [if_pos hnil]
      rw [h12] at h
      simp at h
    · have h12 : randomImport st (some lines) =
          ({ students := studs, isInitialized := true,
             randomHashSet := ∅ }, none) := by
        unfold randomImport
        simp only []
        rw [heq]
        simp only []
        rw [if_neg hnil]
      rw [h12]
      have hspec := importRows_success_spec (lines.drop 1) [] ∅ (by simp)
        (by rw [heq])
      rw [heq] at hspec
      have hs2 : studs = firstOccurAux [] (rowNames (lines.drop 1)) := hspec
      have hnd : studs.Nodup := by
        have h0 := importRows_inv (lines.drop 1) [] ∅ List.nodup_nil
          (by simp) (by simp)
        rw [heq] at h0
        exact h0.1
      refine ⟨hs2, hnd, ?_⟩
      intro x
      show x ∈ studs ↔ _
      rw [hs2, firstOccurAux_mem]
      simp

/-- Witness for C7: importing a file repeating Alice yields the roster
    Alice, Bob (first occurrence wins, order of first appearance). -/
theorem import_dedup_first_wins_witness :
    firstOccurAux [] (rowNames (sampleLinesDup.drop 1)) =
      ["Alice".toList, "Bob".toList] ∧
    (randomImport initialState (some sampleLinesDup)).1.students =
      firstOccurAux [] (rowNames (sampleLinesDup.drop 1)) :=
  ⟨by decide, (import_dedup_first_wins initialState sampleLinesDup (by decide)).1⟩

/-! ## Claim C9 -/

/-- Claim C9: a data row with fewer than two comma-separated fields contributes
    no roster entry - its extracted name is empty, so it is skipped - and the
    whole import behaves exactly as if such rows were absent (given the row
    count is within the capacity bound, as in any real file). -/
theorem import_skips_short_rows (st : EngineState) (header : Str)
    (rows : List Str) (hcap : rows.length ≤ vectorMaxSize) :
    randomImport st (some (header :: rows)) =
      randomImport st (some (header :: rows.filter
        (fun r => decide (2 ≤ (cppSplit r).length)))) := by
  have h := importRows_skip_junk rows [] ∅ (by simpa using hcap)
  unfold randomImport
  simp only []
  rw [show (header :: rows).drop 1 = rows from rfl,
      show (header :: rows.filter (fun r => decide (2 ≤ (cppSplit r).length))).drop 1
            = rows.filter (fun r => decide (2 ≤ (cppSplit r).length)) from rfl,
      h]

/-- Witness for C9: a concrete file with a junk row imports identically to the
    same file with the junk row removed. -/
theorem import_skips_short_rows_witness :
    randomImport initialState (some ("id,name".toList :: sampleRowsJunk)) =
      randomImport initialState (some ("id,name".toList :: sampleRowsJunk.filter
        (fun r => decide (2 ≤ (cppSplit r).length)))) :=
  import_skips_short_rows initialState "id,name".toList sampleRowsJunk (by decide)

end IslandCaller
